import Mathlib

/-!
Verification of the koria-core transport against its specification.

The development shallowly embeds the Go source of the repository:
- bytes are `Nat` values below 256, byte strings are `List Nat`;
- machine integers are modelled by their bit patterns (`Nat` with explicit
  `% 2 ^ w` where overflow matters);
- the IEEE-754 doubles and floats of the PlayerMove disguise packet are
  modelled by their `Float64bits` / `Float32bits` patterns, since both the
  steganographic encoder and decoder manipulate those patterns exclusively
  with bitwise operations (`math.Float64bits`, masking, `math.Float64frombits`)
  and never with floating-point arithmetic;
- fallible Go functions return `Except`;
- the random draws of the encoder (`rand.Float64` etc.) are universally
  quantified parameters (`EncBase`).
-/

namespace Koria

/-! ## Byte-string helpers

`beNat` is the big-endian value of a byte list (each entry truncated to a
byte, as Go's `byte(...)` conversions do); `be16`/`be32` mirror
`binary.BigEndian.PutUint16` / `PutUint32`; `padTake k` mirrors the Go
pattern `padded := make([]byte, k); copy(padded, data)`. -/

def beNat : List Nat → Nat
  | [] => 0
  | b :: rest => (b % 256) * 256 ^ rest.length + beNat rest

def be16 (v : Nat) : List Nat := [v / 256 % 256, v % 256]

def be32 (v : Nat) : List Nat :=
  [v / 2 ^ 24 % 256, v / 2 ^ 16 % 256, v / 2 ^ 8 % 256, v % 256]

def padTake (k : Nat) (l : List Nat) : List Nat :=
  (l ++ List.replicate k 0).take k

/-- Interpretation of a 32-bit pattern as a Go `int32` value. -/
def toInt32 (v : Nat) : Int :=
  if v < 2 ^ 31 then (v : Int) else (v : Int) - 2 ^ 32

/-! ## VarInt codec (`src/protocol/minecraft/varint.go`)

`ReadVarInt` accumulates 7 data bits per byte into an `int32`
(`value |= int32(buf[0]&0x7F) << position`); the Go `int32` shift and or
truncate to 32 bits, modelled by `% 2 ^ 32` on the bit pattern.  The byte
stream to read from is the explicit input list. -/

inductive VarIntErr where
  | eof
  | tooBig
  deriving DecidableEq, Repr

def readVarIntAux : List Nat → Nat → Nat → Except VarIntErr (Nat × List Nat)
  | [], _, _ => .error .eof
  | b :: rest, pos, acc =>
    let acc2 := (acc ||| (b % 128) <<< pos) % 2 ^ 32
    if b % 256 < 128 then .ok (acc2, rest)
    else if 32 ≤ pos + 7 then .error .tooBig
    else readVarIntAux rest (pos + 7) acc2

/-- `ReadVarInt`: returns the decoded 32-bit pattern and the unconsumed
bytes. -/
def readVarIntE (l : List Nat) : Except VarIntErr (Nat × List Nat) :=
  readVarIntAux l 0 0

/-- Arithmetic (sign-extending) right shift by 7 of a 32-bit pattern:
Go's `value >>= 7` on an `int32`. -/
def sar32seven (v : Nat) : Nat :=
  if v < 2 ^ 31 then v / 128 else v / 128 ||| 0xFE000000

/-- `WriteVarInt`'s loop body on the `int32` bit pattern `v`.  The Go loop
has no termination guarantee (its `value >>= 7` is an arithmetic shift), so
the model takes explicit fuel; `none` means the loop has not terminated
within `fuel` iterations.  `value &^ 0x7F == 0` is `v &&& 0xFFFFFF80 = 0`
on the 32-bit pattern, `byte(value)` is `v % 256`, and
`byte(value&0x7F|0x80)` is `v % 128 + 128`. -/
def writeVarIntAux : Nat → Nat → Option (List Nat)
  | 0, _ => none
  | fuel + 1, v =>
    if v &&& 0xFFFFFF80 = 0 then some [v % 256]
    else
      match writeVarIntAux fuel (sar32seven v) with
      | none => none
      | some rest => some ((v % 128 + 128) :: rest)

/-- `WriteVarInt` specialised to the values on which it terminates: for a
nonnegative `int32` (a pattern below `2 ^ 31`) the arithmetic shift is plain
division by 128, giving this structurally terminating form of the same
loop. -/
def natVarInt (v : Nat) : List Nat :=
  if v < 128 then [v]
  else (v % 128 + 128) :: natVarInt (v / 128)
decreasing_by
  exact Nat.div_lt_self (by omega) (by omega)

theorem natVarInt_small {v : Nat} (h : v < 128) : natVarInt v = [v] := by
  rw [natVarInt]; simp [h]

theorem natVarInt_big {v : Nat} (h : ¬ v < 128) :
    natVarInt v = (v % 128 + 128) :: natVarInt (v / 128) := by
  rw [natVarInt]; simp [h]

theorem and_eq_zero_of_lt_of_mod {a m k : Nat} (ha : a < 2 ^ k) (hm : m % 2 ^ k = 0) :
    a &&& m = 0 := by
  apply Nat.eq_of_testBit_eq
  intro i
  simp only [Nat.testBit_and, Nat.zero_testBit]
  by_cases hik : i < k
  · have hmi := Nat.testBit_mod_two_pow m k i
    rw [hm] at hmi
    have hmf : m.testBit i = false := by
      simpa [hik] using hmi.symm
    simp [hmf]
  · have : a.testBit i = false :=
      Nat.testBit_lt_two_pow (lt_of_lt_of_le ha (Nat.pow_le_pow_right (by omega) (by omega)))
    simp [this]

theorem and_shiftLeft_eq (a m k : Nat) : a &&& m <<< k = (a >>> k &&& m) <<< k := by
  apply Nat.eq_of_testBit_eq
  intro i
  simp only [Nat.testBit_and, Nat.testBit_shiftLeft, Nat.testBit_shiftRight, ge_iff_le]
  by_cases h : k ≤ i
  · simp [h, Nat.add_sub_cancel' h]
  · simp [h]

theorem and_high_ne_zero {v : Nat} (h1 : 128 ≤ v) (h2 : v < 2 ^ 31) :
    v &&& 0xFFFFFF80 ≠ 0 := by
  have hm : (0xFFFFFF80 : Nat) = 0x1FFFFFF <<< 7 := by decide
  rw [hm, and_shiftLeft_eq]
  have hv7 : v >>> 7 = v / 128 := by
    rw [Nat.shiftRight_eq_div_pow]
  have hand : v / 128 &&& 0x1FFFFFF = v / 128 := by
    have h25 : (0x1FFFFFF : Nat) = 2 ^ 25 - 1 := by norm_num
    rw [h25, Nat.and_pow_two_sub_one_eq_mod, Nat.mod_eq_of_lt (by omega)]
  rw [hv7, hand, Nat.shiftLeft_eq]
  have : 0 < v / 128 := by omega
  positivity

theorem natVarInt_writeVarIntAux (v : Nat) : v < 2 ^ 31 →
    ∀ fuel, (natVarInt v).length ≤ fuel → writeVarIntAux fuel v = some (natVarInt v) := by
  induction v using natVarInt.induct with
  | case1 v hlt =>
    intro _ fuel hfuel
    rw [natVarInt_small hlt] at hfuel ⊢
    cases fuel with
    | zero => simp at hfuel
    | succ fuel =>
      have hand : v &&& 0xFFFFFF80 = 0 :=
        and_eq_zero_of_lt_of_mod (k := 7) (by omega) (by norm_num)
      simp [writeVarIntAux, hand, Nat.mod_eq_of_lt (show v < 256 by omega)]
  | case2 v hge ih =>
    intro hv fuel hfuel
    rw [natVarInt_big hge] at hfuel ⊢
    cases fuel with
    | zero => simp at hfuel
    | succ fuel =>
      have hrec := ih (by omega) fuel (by simpa using hfuel)
      have hsar : sar32seven v = v / 128 := by
        unfold sar32seven
        rw [if_pos hv]
      have hand : ¬ v &&& 0xFFFFFF80 = 0 := and_high_ne_zero (by omega) hv
      simp [writeVarIntAux, hand, hsar, hrec]

theorem or_shiftLeft_eq_add {a k : Nat} (b : Nat) (ha : a < 2 ^ k) :
    a ||| b <<< k = a + b <<< k := by
  have h := Nat.mul_add_lt_is_or ha b
  rw [Nat.shiftLeft_eq, Nat.lor_comm, Nat.mul_comm b, ← h]
  omega

theorem readVarIntAux_natVarInt (v : Nat) : ∀ (tail : List Nat) (pos acc : Nat),
    pos ≤ 30 → acc < 2 ^ pos → v < 2 ^ (31 - pos) →
    readVarIntAux (natVarInt v ++ tail) pos acc = .ok (acc + v <<< pos, tail) := by
  induction v using natVarInt.induct with
  | case1 v hlt =>
    intro tail pos acc hpos hacc hv
    rw [natVarInt_small hlt]
    have hmod : v % 128 = v := Nat.mod_eq_of_lt hlt
    have hb : v % 256 < 128 := by omega
    have h2p : 0 < (2 : Nat) ^ pos := Nat.pos_pow_of_pos pos (by omega)
    have hvp : v <<< pos < 2 ^ 31 := by
      rw [Nat.shiftLeft_eq]
      calc v * 2 ^ pos < 2 ^ (31 - pos) * 2 ^ pos := by
            exact mul_lt_mul_of_pos_right hv h2p
        _ = 2 ^ 31 := by rw [← pow_add]; congr 1; omega
    have hor : acc ||| v <<< pos = acc + v <<< pos := or_shiftLeft_eq_add v hacc
    have haccb : acc < 2 ^ 31 :=
      lt_of_lt_of_le hacc (Nat.pow_le_pow_right (by omega) (by omega))
    simp only [List.cons_append, List.nil_append, readVarIntAux, hmod, hor, hb, if_pos]
    rw [Nat.mod_eq_of_lt (by omega : acc + v <<< pos < 2 ^ 32)]
    rfl
  | case2 v hge ih =>
    intro tail pos acc hpos hacc hv
    rw [natVarInt_big hge]
    have hple : pos ≤ 23 := by
      by_contra hgt
      have : 31 - pos ≤ 7 := by omega
      have : (2 : Nat) ^ (31 - pos) ≤ 2 ^ 7 := Nat.pow_le_pow_right (by omega) this
      omega
    have hbmod : (v % 128 + 128) % 128 = v % 128 := by omega
    have hbbig : ¬ (v % 128 + 128) % 256 < 128 := by omega
    have hor : acc ||| (v % 128) <<< pos = acc + (v % 128) <<< pos :=
      or_shiftLeft_eq_add (v % 128) hacc
    have hp7 : (2 : Nat) ^ (pos + 7) = 128 * 2 ^ pos := by
      rw [pow_add]; ring
    have hshift : (v % 128) <<< pos = v % 128 * 2 ^ pos := Nat.shiftLeft_eq _ _
    have hacc2 : acc + (v % 128) <<< pos < 2 ^ (pos + 7) := by
      have : v % 128 * 2 ^ pos ≤ 127 * 2 ^ pos :=
        Nat.mul_le_mul_right _ (by omega)
      omega
    have hacc2b : acc + (v % 128) <<< pos < 2 ^ 32 := by
      have : (2 : Nat) ^ (pos + 7) ≤ 2 ^ 32 := Nat.pow_le_pow_right (by omega) (by omega)
      omega
    have hdivlt : v / 128 < 2 ^ (31 - (pos + 7)) := by
      have hsplit : (2 : Nat) ^ (31 - pos) = 2 ^ (31 - (pos + 7)) * 128 := by
        rw [show (128 : Nat) = 2 ^ 7 by norm_num, ← pow_add]
        congr 1
        omega
      omega
    have hrec := ih tail (pos + 7) (acc + (v % 128) <<< pos) (by omega : pos + 7 ≤ 30) hacc2 hdivlt
    simp only [List.cons_append, readVarIntAux, hbmod, hor, hbbig, if_neg,
      if_false, Nat.mod_eq_of_lt hacc2b]
    rw [if_neg (by omega : ¬ 32 ≤ pos + 7)]
    rw [List.append_eq, hrec]
    have hp77 : (v / 128) <<< (pos + 7) = v / 128 * (128 * 2 ^ pos) := by
      rw [Nat.shiftLeft_eq, hp7]
    congr 2
    rw [hp77, hshift, Nat.shiftLeft_eq]
    conv_rhs => rw [← Nat.div_add_mod v 128]
    ring

theorem readVarIntE_natVarInt (v : Nat) (hv : v < 2 ^ 31) (tail : List Nat) :
    readVarIntE (natVarInt v ++ tail) = .ok (v, tail) := by
  have h := readVarIntAux_natVarInt v tail 0 0 (by omega) (by omega) (by simpa using hv)
  simpa [readVarIntE, Nat.shiftLeft_eq] using h

/-! The 32-bit pattern of the Go constant `int32(-1)` is `0xFFFFFFFF`. -/

theorem sar32seven_neg_one : sar32seven 0xFFFFFFFF = 0xFFFFFFFF := by decide

/-- C3 — VarInt encode/decode are exact inverses over all of int32.
REFUTED on the code: `WriteVarInt(-1)` never terminates.  Its loop shifts
with Go's arithmetic (sign-extending) right shift, so from the pattern
`0xFFFFFFFF` the value never reaches the exit condition `value&^0x7F == 0`:
for every fuel bound the modelled loop fails to finish (it would append
`0xFF` bytes forever), while the claim requires termination with at most 5
bytes. -/
theorem writeVarInt_diverges_on_minus_one (fuel : Nat) :
    writeVarIntAux fuel 0xFFFFFFFF = none := by
  induction fuel with
  | zero => rfl
  | succ fuel ih =>
    have hand : ¬ (0xFFFFFFFF &&& 0xFFFFFF80 : Nat) = 0 := by decide
    simp [writeVarIntAux, hand, sar32seven_neg_one, ih]

/-! ## Packet envelope codec (`ReadPacketRaw`)

A disguise packet on the wire is `VarInt(total length) ‖ VarInt(type tag) ‖
payload`.  `ReadPacketRaw` reads the length, rejects `length <= 0 ||
length > 2097151` (`2^21-1 max packet size` in the source), reads exactly
`length` bytes, parses the type tag out of them and returns the tag, the
bytes after the tag, and (in this model) the unconsumed remainder of the
input stream. -/

inductive PktErr where
  | lenRead (e : VarIntErr)
  | invalidLength
  | truncated
  | idRead (e : VarIntErr)
  deriving DecidableEq, Repr

def readPacketRaw (input : List Nat) : Except PktErr (Int × List Nat × List Nat) :=
  match readVarIntE input with
  | .error e => .error (.lenRead e)
  | .ok (lv, rest) =>
    let len : Int := toInt32 lv
    if len ≤ 0 ∨ 2097151 < len then .error .invalidLength
    else if rest.length < len.toNat then .error .truncated
    else
      match readVarIntE (rest.take len.toNat) with
      | .error e => .error (.idRead e)
      | .ok (pid, remaining) => .ok (toInt32 pid, remaining, rest.drop len.toNat)

/-- C6 counterexample — the claim says decoding fails exactly for decoded
total lengths ≤ 0 or larger than 2 MiB (2,097,152 bytes), so a packet of
total length exactly 2,097,152 should pass the length check.  The code
rejects it: its ceiling is `2097151` (`2^21-1`).  The input below carries
the VarInt encoding of 2,097,152 followed by that many payload bytes, yet
decoding fails with the invalid-length error. -/
theorem readPacketRaw_rejects_two_mib :
    readVarIntE [0x80, 0x80, 0x80, 0x01] = .ok (2097152, []) ∧
    readPacketRaw ([0x80, 0x80, 0x80, 0x01] ++ List.replicate 2097152 0) =
      .error .invalidLength := by
  constructor
  · rfl
  · have key : ∀ tail : List Nat,
        readPacketRaw ([0x80, 0x80, 0x80, 0x01] ++ tail) = .error .invalidLength := by
      intro tail
      have h := readVarIntAux_natVarInt 2097152 tail 0 0
        (by omega) (by omega) (by norm_num)
      have h1 : natVarInt 2097152 = 0x80 :: natVarInt 16384 := by
        rw [natVarInt_big (by norm_num)]
      have h2 : natVarInt 16384 = 0x80 :: natVarInt 128 := by
        rw [natVarInt_big (by norm_num)]
      have h3 : natVarInt 128 = 0x80 :: natVarInt 1 := by
        rw [natVarInt_big (by norm_num)]
      have h4 : natVarInt 1 = [1] := natVarInt_small (by norm_num)
      rw [h1, h2, h3, h4] at h
      have hread : readVarIntE ([0x80, 0x80, 0x80, 0x01] ++ tail) = .ok (2097152, tail) := by
        simpa [readVarIntE, Nat.shiftLeft_eq] using h
      have hcond : toInt32 2097152 ≤ 0 ∨ 2097151 < toInt32 2097152 := by
        right; unfold toInt32; norm_num
      unfold readPacketRaw
      rw [hread]
      simp [hcond]
    exact key (List.replicate 2097152 0)

/-- C6 amended — packet-envelope decoding fails its length check exactly
when the decoded total length is ≤ 0 or larger than 2,097,151 bytes
(`2^21 - 1`); for every accepted length, one decode call consumes exactly
that many bytes after the length prefix, parses the type tag out of them,
and returns the tag, the remaining payload, and the untouched rest of the
stream. -/
theorem readPacketRaw_length_check (L : Nat) (body rest : List Nat)
    (hL31 : L < 2 ^ 31) (hbody : body.length = L) :
    ((L = 0 ∨ 2097151 < L) →
      readPacketRaw (natVarInt L ++ (body ++ rest)) = .error .invalidLength) ∧
    (0 < L → L ≤ 2097151 → ∀ pid remaining, readVarIntE body = .ok (pid, remaining) →
      readPacketRaw (natVarInt L ++ (body ++ rest)) = .ok (toInt32 pid, remaining, rest)) := by
  have hread := readVarIntE_natVarInt L hL31 (body ++ rest)
  have ht : toInt32 L = (L : Int) := by
    unfold toInt32; rw [if_pos hL31]
  constructor
  · intro hbad
    unfold readPacketRaw
    rw [hread]
    have hcond : toInt32 L ≤ 0 ∨ 2097151 < toInt32 L := by
      rw [ht]
      rcases hbad with h | h
      · left; simp [h]
      · right; exact_mod_cast h
    simp [hcond]
  · intro hpos hle pid remaining hbodyread
    unfold readPacketRaw
    rw [hread]
    have hcond : ¬ (toInt32 L ≤ 0 ∨ 2097151 < toInt32 L) := by
      rw [ht]
      push_neg
      constructor
      · exact_mod_cast hpos
      · exact_mod_cast hle
    have htn : (toInt32 L).toNat = L := by rw [ht]; simp
    have hrl : ¬ ((body ++ rest).length < (toInt32 L).toNat) := by
      rw [htn]
      simp [hbody]
    simp only [hcond, if_false, ite_false, if_neg hcond, if_neg hrl, htn,
      List.take_left' hbody, List.drop_left' hbody, hbodyread]
    rw [if_neg (show ¬ (body ++ rest).length < L by simp [hbody])]

/-- Witness for the amended C6 theorem at the concrete input
`[2, 42, 7, 9]`: total length 2, type tag 42, payload `[7]`, with a
trailing byte `[9]` left unconsumed. -/
theorem readPacketRaw_length_check_witness :
    0 < 2 ∧ 2 ≤ 2097151 ∧ readPacketRaw [2, 42, 7, 9] = .ok (42, [7], [9]) := by
  refine ⟨by norm_num, by norm_num, ?_⟩
  have h := (readPacketRaw_length_check 2 [42, 7] [9] (by norm_num) rfl).2
    (by norm_num) (by norm_num) 42 [7] rfl
  have hnv : natVarInt 2 = [2] := natVarInt_small (by norm_num)
  rw [hnv] at h
  simpa [toInt32] using h

/-! ## Frame (`src/protocol/steganography/frame.go`)

`Frame{StreamID uint16, Sequence uint16, Flags uint8, Length uint16,
Data []byte}`.  Field values are `Nat` bit patterns; theorems carry the
uint16/uint8 range bounds as hypotheses. -/

structure Frame where
  streamID : Nat
  sequence : Nat
  flags : Nat
  length : Nat
  data : List Nat
  deriving DecidableEq, Repr

def flagSYN : Nat := 1
def flagACK : Nat := 2
def flagFIN : Nat := 4
def flagRST : Nat := 8
def flagPSH : Nat := 16

def headerSize : Nat := 7

/-! ## Packet selector (`src/protocol/steganography/selector.go`, the
two-tier variant wired into the multiplexer)

`PacketType` is an `int32` in Go; the constants keep their wire values. -/

def packetTypePlayerMove : Nat := 0x1A
def packetTypeCustomPayload : Nat := 0x12

/-- `MaxDataPerPlayerMove = 10` (`17 bytes total - 7 byte header`). -/
def maxDataPerPlayerMove : Nat := 10

/-- `PacketSelector.SelectPacketType`: `dataSize > MaxDataPerPlayerMove`
selects CustomPayload, otherwise PlayerMove. -/
def selectPacketType (dataSize : Nat) : Nat :=
  if maxDataPerPlayerMove < dataSize then packetTypeCustomPayload
  else packetTypePlayerMove

/-- `PacketSelector.GetMaxPayload` (two-tier variant; the `default` case of
the Go switch also returns `MaxDataPerPlayerMove`). -/
def getMaxPayload (packetType : Nat) : Nat :=
  if packetType = packetTypeCustomPayload then 32760
  else if packetType = packetTypePlayerMove then maxDataPerPlayerMove
  else maxDataPerPlayerMove

/-! ## Steganographic encoder (`src/protocol/steganography/encoder.go`) -/

/-- The payload stream both encoders build: 7-byte header (StreamID u16BE,
Sequence u16BE, Flags u8, `uint16(len(frame.Data))` u16BE) followed by the
frame data. -/
def encodedPayload (f : Frame) : List Nat :=
  be16 f.streamID ++ be16 f.sequence ++ [f.flags % 256] ++
    be16 f.data.length ++ f.data

/-- The random draws of `Encoder.EncodeFrame` (`baseX`, `baseY`, `baseZ`,
`baseYaw`, `basePitch` as IEEE-754 bit patterns, and the `rand.Intn(4)`
fallback for the flags byte), universally quantified in the theorems. -/
structure EncBase where
  x : Nat
  y : Nat
  z : Nat
  yaw : Nat
  pitch : Nat
  flagsRand : Nat
  deriving DecidableEq, Repr

inductive StegErr where
  | dataTooLarge
  | headerShort
  | dataExceeds
  deriving DecidableEq, Repr

/-- `PlayerMovePacket` with each float field as its IEEE-754 bit pattern
(`X`,`Y`,`Z` are `Float64bits`, `Yaw`,`Pitch` are `Float32bits`). -/
structure PlayerMovePacket where
  x : Nat
  y : Nat
  z : Nat
  yaw : Nat
  pitch : Nat
  flags : Nat
  deriving DecidableEq, Repr

structure CustomPayloadPacket where
  channel : String
  data : List Nat
  deriving DecidableEq, Repr

/-- `encodeDataInDouble`: clear the low 32 bits of the double's pattern
(`bits & 0xFFFFFFFF00000000`) and or in the big-endian value of the data
(first 4 bytes if long enough, else zero-padded to 4). -/
def encodeDataInDouble (base : Nat) (data : List Nat) : Nat :=
  (base &&& 0xFFFFFFFF00000000) |||
    (if 4 ≤ data.length then beNat (data.take 4) else beNat (padTake 4 data))

/-- `encodeDataInFloat`: clear the low 16 bits of the float's pattern and
or in the data value (`BigEndian.Uint16` of the first 2 bytes, a single
byte widened to uint16, or 0). -/
def encodeDataInFloat (base : Nat) (data : List Nat) : Nat :=
  (base &&& 0xFFFF0000) |||
    (if 2 ≤ data.length then beNat (data.take 2)
     else if data.length = 1 then data.getD 0 0 % 256
     else 0)

/-- `Encoder.EncodeFrame`: hide the payload stream in a PlayerMove-shaped
packet.  `X` carries bytes 0-3, `Y` 4-7, `Z` 8-11, `Yaw` 12-13, `Pitch`
14-15 (each zero-padded when the stream ends inside the field); the flags
byte carries `encodedData[16] & 0x03` when byte 16 exists, else a random
value below 4. -/
def encodeFrame (e : EncBase) (f : Frame) : Except StegErr PlayerMovePacket :=
  if maxDataPerPlayerMove < f.data.length then .error .dataTooLarge
  else
    let ed := encodedPayload f
    let n := ed.length
    .ok
      { x := if 4 ≤ n then encodeDataInDouble e.x (ed.take 4) else e.x
        y :=
          if 8 ≤ n then encodeDataInDouble e.y ((ed.drop 4).take 4)
          else if 4 < n then encodeDataInDouble e.y (padTake 4 (ed.drop 4))
          else e.y
        z :=
          if 12 ≤ n then encodeDataInDouble e.z ((ed.drop 8).take 4)
          else if 8 < n then encodeDataInDouble e.z (padTake 4 (ed.drop 8))
          else e.z
        yaw :=
          if 14 ≤ n then encodeDataInFloat e.yaw ((ed.drop 12).take 2)
          else if 12 < n then encodeDataInFloat e.yaw (padTake 2 (ed.drop 12))
          else e.yaw
        pitch :=
          if 16 ≤ n then encodeDataInFloat e.pitch ((ed.drop 14).take 2)
          else if 14 < n then encodeDataInFloat e.pitch (padTake 2 (ed.drop 14))
          else e.pitch
        flags := if 17 ≤ n then ed.getD 16 0 &&& 0x03 else e.flagsRand % 4 }

/-- `Encoder.EncodeFrameInCustomPayload`: the payload stream verbatim under
the `minecraft:brand` channel. -/
def encodeFrameInCustomPayload (f : Frame) : CustomPayloadPacket :=
  { channel := "minecraft:brand", data := encodedPayload f }

/-! ## Steganographic decoder (`src/protocol/steganography/decoder.go`) -/

def decodeDataFromDouble (value : Nat) : Nat := value &&& 0xFFFFFFFF

def decodeDataFromFloat (value : Nat) : Nat := value &&& 0xFFFF

/-- `Decoder.DecodeFrame`: rebuild the 17-byte stream from the masked
fields, parse the 7-byte header, then slice `Length` data bytes, rejecting
a length that exceeds the available 17 bytes. -/
def decodeFrame (p : PlayerMovePacket) : Except StegErr Frame :=
  let ed := be32 (decodeDataFromDouble p.x) ++ be32 (decodeDataFromDouble p.y) ++
    be32 (decodeDataFromDouble p.z) ++ be16 (decodeDataFromFloat p.yaw) ++
    be16 (decodeDataFromFloat p.pitch) ++ [p.flags % 256]
  if ed.length < headerSize then .error .headerShort
  else
    let dataLen := ed.getD 5 0 * 256 + ed.getD 6 0
    if 0 < dataLen ∧ ed.length < headerSize + dataLen then .error .dataExceeds
    else
      .ok
        { streamID := ed.getD 0 0 * 256 + ed.getD 1 0
          sequence := ed.getD 2 0 * 256 + ed.getD 3 0
          flags := ed.getD 4 0
          length := dataLen
          data := if 0 < dataLen then (ed.drop headerSize).take dataLen else [] }

/-- `Decoder.DecodeFrameFromCustomPayload`: parse the header and slice
`Length` bytes out of the verbatim payload stream. -/
def decodeFrameFromCustomPayload (p : CustomPayloadPacket) : Except StegErr Frame :=
  if p.data.length < headerSize then .error .headerShort
  else
    let dataLen := p.data.getD 5 0 * 256 + p.data.getD 6 0
    if 0 < dataLen ∧ p.data.length < headerSize + dataLen then .error .dataExceeds
    else
      .ok
        { streamID := p.data.getD 0 0 * 256 + p.data.getD 1 0
          sequence := p.data.getD 2 0 * 256 + p.data.getD 3 0
          flags := p.data.getD 4 0
          length := dataLen
          data := if 0 < dataLen then (p.data.drop headerSize).take dataLen else [] }

/-! ## The multiplexer's send and receive paths for one frame
(`Multiplexer.sendFrame` packet-type switch and the `readLoop` decode
switch, `src/protocol/multiplexer/mux.go`). -/

inductive DisguisePacket where
  | move (p : PlayerMovePacket)
  | payload (p : CustomPayloadPacket)
  deriving DecidableEq, Repr

/-- `Multiplexer.sendFrame` encoding step: select the packet type from
`len(frame.Data)` and encode with the matching encoder (the `default`
branch also uses `EncodeFrame`). -/
def sendFrameEncode (e : EncBase) (f : Frame) : Except StegErr DisguisePacket :=
  let pt := selectPacketType f.data.length
  if pt = packetTypePlayerMove then (encodeFrame e f).map .move
  else if pt = packetTypeCustomPayload then .ok (.payload (encodeFrameInCustomPayload f))
  else (encodeFrame e f).map .move

/-- `Multiplexer.readLoop` decoding step: dispatch on the received packet
type. -/
def recvFrameDecode : DisguisePacket → Except StegErr Frame
  | .move p => decodeFrame p
  | .payload p => decodeFrameFromCustomPayload p

/-! ## Round-trip lemmas for the steganographic codec -/

theorem beNat_lt (l : List Nat) : beNat l < 256 ^ l.length := by
  induction l with
  | nil => simp [beNat]
  | cons b rest ih =>
    simp only [beNat, List.length_cons, pow_succ]
    have h1 : b % 256 ≤ 255 := by omega
    have h2 : b % 256 * 256 ^ rest.length ≤ 255 * 256 ^ rest.length :=
      Nat.mul_le_mul_right _ h1
    have h3 : 0 < 256 ^ rest.length := Nat.pos_pow_of_pos _ (by omega)
    calc b % 256 * 256 ^ rest.length + beNat rest
        < 255 * 256 ^ rest.length + 256 ^ rest.length := by omega
      _ = 256 ^ rest.length * 256 := by ring

theorem padTake_length (k : Nat) (l : List Nat) : (padTake k l).length = k := by
  simp [padTake]

theorem padTake_of_le {k : Nat} {l : List Nat} (h : k ≤ l.length) :
    padTake k l = l.take k := by
  simp [padTake, List.take_append_of_le_length h]

theorem masked_or_low32 (base : Nat) {v : Nat} (hv : v < 2 ^ 32) :
    ((base &&& 0xFFFFFFFF00000000) ||| v) &&& 0xFFFFFFFF = v := by
  have hdist : ((base &&& 0xFFFFFFFF00000000) ||| v) &&& 0xFFFFFFFF =
      ((base &&& 0xFFFFFFFF00000000) &&& 0xFFFFFFFF) ||| (v &&& 0xFFFFFFFF) := by
    rw [Nat.and_comm _ 0xFFFFFFFF, Nat.and_or_distrib_left,
      Nat.and_comm 0xFFFFFFFF, Nat.and_comm 0xFFFFFFFF]
  rw [hdist, Nat.and_assoc]
  have hm : (0xFFFFFFFF00000000 &&& 0xFFFFFFFF : Nat) = 0 := by decide
  have hv32 : v &&& 0xFFFFFFFF = v := by
    have : (0xFFFFFFFF : Nat) = 2 ^ 32 - 1 := by norm_num
    rw [this, Nat.and_pow_two_sub_one_eq_mod, Nat.mod_eq_of_lt hv]
  rw [hm, Nat.and_zero, Nat.zero_or, hv32]

theorem masked_or_low16 (base : Nat) {v : Nat} (hv : v < 2 ^ 16) :
    ((base &&& 0xFFFF0000) ||| v) &&& 0xFFFF = v := by
  have hdist : ((base &&& 0xFFFF0000) ||| v) &&& 0xFFFF =
      ((base &&& 0xFFFF0000) &&& 0xFFFF) ||| (v &&& 0xFFFF) := by
    rw [Nat.and_comm _ 0xFFFF, Nat.and_or_distrib_left,
      Nat.and_comm 0xFFFF, Nat.and_comm 0xFFFF]
  rw [hdist, Nat.and_assoc]
  have hm : (0xFFFF0000 &&& 0xFFFF : Nat) = 0 := by decide
  have hv16 : v &&& 0xFFFF = v := by
    have : (0xFFFF : Nat) = 2 ^ 16 - 1 := by norm_num
    rw [this, Nat.and_pow_two_sub_one_eq_mod, Nat.mod_eq_of_lt hv]
  rw [hm, Nat.and_zero, Nat.zero_or, hv16]

theorem decodeDouble_encode (base : Nat) (data : List Nat) :
    decodeDataFromDouble (encodeDataInDouble base data) =
      if 4 ≤ data.length then beNat (data.take 4) else beNat (padTake 4 data) := by
  unfold decodeDataFromDouble encodeDataInDouble
  split
  · next h =>
    have hlen : (data.take 4).length = 4 := by simp; omega
    have hv : beNat (data.take 4) < 2 ^ 32 := by
      have := beNat_lt (data.take 4)
      rw [hlen] at this
      norm_num at this
      exact this
    exact masked_or_low32 base hv
  · next h =>
    have hv : beNat (padTake 4 data) < 2 ^ 32 := by
      have := beNat_lt (padTake 4 data)
      rw [padTake_length] at this
      norm_num at this
      exact this
    exact masked_or_low32 base hv

theorem decodeFloat_encode (base : Nat) (data : List Nat) :
    decodeDataFromFloat (encodeDataInFloat base data) =
      if 2 ≤ data.length then beNat (data.take 2)
      else if data.length = 1 then data.getD 0 0 % 256
      else 0 := by
  unfold decodeDataFromFloat encodeDataInFloat
  split
  · next h =>
    have hlen : (data.take 2).length = 2 := by simp; omega
    have hv : beNat (data.take 2) < 2 ^ 16 := by
      have := beNat_lt (data.take 2)
      rw [hlen] at this
      norm_num at this
      exact this
    exact masked_or_low16 base hv
  · next h =>
    split
    · next h1 =>
      exact masked_or_low16 base (by omega)
    · next h1 =>
      exact masked_or_low16 base (by omega)

theorem be32_beNat (a b c d : Nat) :
    be32 (beNat [a, b, c, d]) = [a % 256, b % 256, c % 256, d % 256] := by
  simp only [be32, beNat, List.length_cons, List.length_nil]
  norm_num
  omega

theorem be16_beNat (a b : Nat) :
    be16 (beNat [a, b]) = [a % 256, b % 256] := by
  simp only [be16, beNat, List.length_cons, List.length_nil]
  norm_num
  omega

theorem map_move_bind (x : Except StegErr PlayerMovePacket) :
    (x.map DisguisePacket.move).bind recvFrameDecode = x.bind decodeFrame := by
  cases x <;> rfl

theorem map_payload_bind (x : Except StegErr CustomPayloadPacket) :
    (x.map DisguisePacket.payload).bind recvFrameDecode =
      x.bind decodeFrameFromCustomPayload := by
  cases x <;> rfl

/-- CustomPayload round trip: the payload stream is written verbatim, so
decoding recovers the frame for every data length below 2^16. -/
theorem customPayload_roundtrip (f : Frame)
    (hsid : f.streamID < 65536) (hseq : f.sequence < 65536) (hfl : f.flags < 256)
    (hlen : f.length = f.data.length) (hdl : f.data.length < 65536) :
    decodeFrameFromCustomPayload (encodeFrameInCustomPayload f) = .ok f := by
  unfold decodeFrameFromCustomPayload encodeFrameInCustomPayload encodedPayload be16
  simp only [List.cons_append, List.nil_append, List.length_cons, List.getD_cons_zero,
    List.getD_cons_succ, List.length_append, headerSize]
  rw [if_neg (by omega)]
  have hdataLen : f.data.length / 256 % 256 * 256 + f.data.length % 256 = f.data.length := by
    omega
  rw [hdataLen]
  rw [if_neg (by omega)]
  simp only [Except.ok.injEq]
  have hdrop : f.data.drop 0 = f.data := List.drop_zero f.data
  rcases Nat.eq_zero_or_pos f.data.length with hz | hp
  · have hnil : f.data = [] := List.eq_nil_of_length_eq_zero hz
    cases f
    simp_all
    omega
  · cases f with
    | mk sid seq fl ln dt =>
      simp only at *
      rw [if_pos hp]
      simp only [Frame.mk.injEq]
      refine ⟨by omega, by omega, by omega, by omega, ?_⟩
      simp [List.take_of_length_le]

theorem be32_beNat_lt {a b c d : Nat} (ha : a < 256) (hb : b < 256) (hc : c < 256)
    (hd : d < 256) : be32 (beNat [a, b, c, d]) = [a, b, c, d] := by
  rw [be32_beNat, Nat.mod_eq_of_lt ha, Nat.mod_eq_of_lt hb, Nat.mod_eq_of_lt hc,
    Nat.mod_eq_of_lt hd]

/-- PlayerMove round trip for a 2-byte data frame (payload stream of
9 bytes): bytes 0-7 of the stream ride in `X` and `Y`, byte 8 in the
zero-padded `Z`. -/
theorem playerMove_roundtrip_len2 (e : EncBase) (f : Frame)
    (hsid : f.streamID < 65536) (hseq : f.sequence < 65536) (hfl : f.flags < 256)
    (hlen : f.length = f.data.length) (hbytes : ∀ b ∈ f.data, b < 256)
    (hdl : f.data.length = 2) :
    (encodeFrame e f).bind decodeFrame = .ok f := by
  obtain ⟨d0, d1, hdata⟩ := List.length_eq_two.mp hdl
  obtain ⟨sid, seq, fl, ln, dt⟩ := f
  simp only at hsid hseq hfl hlen hbytes hdl hdata ⊢
  subst hdata
  have hd0 : d0 < 256 := hbytes d0 (by simp)
  have hd1 : d1 < 256 := hbytes d1 (by simp)
  have hed : encodedPayload ⟨sid, seq, fl, ln, [d0, d1]⟩ =
      [sid / 256 % 256, sid % 256, seq / 256 % 256, seq % 256, fl % 256, 0, 2, d0, d1] := by
    simp [encodedPayload, be16]
  have henc : encodeFrame e ⟨sid, seq, fl, ln, [d0, d1]⟩ =
      .ok { x := encodeDataInDouble e.x [sid / 256 % 256, sid % 256, seq / 256 % 256, seq % 256],
            y := encodeDataInDouble e.y [fl % 256, 0, 2, d0],
            z := encodeDataInDouble e.z [d1, 0, 0, 0],
            yaw := e.yaw, pitch := e.pitch, flags := e.flagsRand % 4 } := by
    unfold encodeFrame
    rw [hed]
    norm_num [maxDataPerPlayerMove, padTake]
    rfl
  rw [henc]
  have hx := decodeDouble_encode e.x [sid / 256 % 256, sid % 256, seq / 256 % 256, seq % 256]
  have hy := decodeDouble_encode e.y [fl % 256, 0, 2, d0]
  have hz := decodeDouble_encode e.z [d1, 0, 0, 0]
  norm_num at hx hy hz
  show decodeFrame _ = _
  unfold decodeFrame
  rw [hx, hy, hz, be32_beNat_lt (by omega) (by omega) (by omega) (by omega),
    be32_beNat_lt (by omega) (by omega) (by omega) (by omega),
    be32_beNat_lt (by omega) (by omega) (by omega) (by omega)]
  simp only [be16, List.cons_append, List.nil_append, List.getD_cons_zero,
    List.getD_cons_succ, headerSize, List.length_cons, List.length_append]
  norm_num
  omega

/-- PlayerMove round trip for a 3-byte data frame (payload stream of
10 bytes): bytes 8-9 ride in the zero-padded `Z`. -/
theorem playerMove_roundtrip_len3 (e : EncBase) (f : Frame)
    (hsid : f.streamID < 65536) (hseq : f.sequence < 65536) (hfl : f.flags < 256)
    (hlen : f.length = f.data.length) (hbytes : ∀ b ∈ f.data, b < 256)
    (hdl : f.data.length = 3) :
    (encodeFrame e f).bind decodeFrame = .ok f := by
  obtain ⟨d0, d1, d2, hdata⟩ := List.length_eq_three.mp hdl
  obtain ⟨sid, seq, fl, ln, dt⟩ := f
  simp only at hsid hseq hfl hlen hbytes hdl hdata ⊢
  subst hdata
  have hd0 : d0 < 256 := hbytes d0 (by simp)
  have hd1 : d1 < 256 := hbytes d1 (by simp)
  have hd2 : d2 < 256 := hbytes d2 (by simp)
  have hed : encodedPayload ⟨sid, seq, fl, ln, [d0, d1, d2]⟩ =
      [sid / 256 % 256, sid % 256, seq / 256 % 256, seq % 256, fl % 256, 0, 3, d0, d1, d2] := by
    simp [encodedPayload, be16]
  have henc : encodeFrame e ⟨sid, seq, fl, ln, [d0, d1, d2]⟩ =
      .ok { x := encodeDataInDouble e.x [sid / 256 % 256, sid % 256, seq / 256 % 256, seq % 256],
            y := encodeDataInDouble e.y [fl % 256, 0, 3, d0],
            z := encodeDataInDouble e.z [d1, d2, 0, 0],
            yaw := e.yaw, pitch := e.pitch, flags := e.flagsRand % 4 } := by
    unfold encodeFrame
    rw [hed]
    norm_num [maxDataPerPlayerMove, padTake]
    rfl
  rw [henc]
  have hx := decodeDouble_encode e.x [sid / 256 % 256, sid % 256, seq / 256 % 256, seq % 256]
  have hy := decodeDouble_encode e.y [fl % 256, 0, 3, d0]
  have hz := decodeDouble_encode e.z [d1, d2, 0, 0]
  norm_num at hx hy hz
  show decodeFrame _ = _
  unfold decodeFrame
  rw [hx, hy, hz, be32_beNat_lt (by omega) (by omega) (by omega) (by omega),
    be32_beNat_lt (by omega) (by omega) (by omega) (by omega),
    be32_beNat_lt (by omega) (by omega) (by omega) (by omega)]
  simp only [be16, List.cons_append, List.nil_append, List.getD_cons_zero,
    List.getD_cons_succ, headerSize, List.length_cons, List.length_append]
  norm_num
  omega

/-- C1 — steganographic round trip: for every frame whose payload stream
(7-byte header followed by the data) has size 1, 9, 10, or 1000 bytes,
with arbitrary stream id, sequence and flags (within their uint16/uint8
ranges) and arbitrary random draws of the encoder, encoding through the
send path's selected disguise packet and decoding that packet reproduces
the frame exactly.  (No frame has a payload stream of size 1, since the
stream always begins with the 7-byte header; the other three sizes are
realized by data lengths 2, 3 and 993.) -/
theorem steg_roundtrip_selected_sizes (e : EncBase) (f : Frame)
    (hsid : f.streamID < 65536) (hseq : f.sequence < 65536) (hfl : f.flags < 256)
    (hlen : f.length = f.data.length) (hbytes : ∀ b ∈ f.data, b < 256)
    (hsize : headerSize + f.data.length = 1 ∨ headerSize + f.data.length = 9 ∨
      headerSize + f.data.length = 10 ∨ headerSize + f.data.length = 1000) :
    (sendFrameEncode e f).bind recvFrameDecode = .ok f := by
  unfold headerSize at hsize
  rcases hsize with h | h | h | h
  · omega
  · have hdl : f.data.length = 2 := by omega
    have hsel : selectPacketType f.data.length = packetTypePlayerMove := by
      rw [hdl]; rfl
    unfold sendFrameEncode
    rw [hsel, if_pos rfl, map_move_bind]
    exact playerMove_roundtrip_len2 e f hsid hseq hfl hlen hbytes hdl
  · have hdl : f.data.length = 3 := by omega
    have hsel : selectPacketType f.data.length = packetTypePlayerMove := by
      rw [hdl]; rfl
    unfold sendFrameEncode
    rw [hsel, if_pos rfl, map_move_bind]
    exact playerMove_roundtrip_len3 e f hsid hseq hfl hlen hbytes hdl
  · have hdl : f.data.length = 993 := by omega
    have hsel : selectPacketType f.data.length = packetTypeCustomPayload := by
      rw [hdl]; rfl
    unfold sendFrameEncode
    rw [hsel]
    rw [if_neg (by unfold packetTypeCustomPayload packetTypePlayerMove; omega), if_pos rfl]
    have h := customPayload_roundtrip f hsid hseq hfl hlen (by omega)
    rw [show (Except.ok (DisguisePacket.payload (encodeFrameInCustomPayload f))).bind
        recvFrameDecode = decodeFrameFromCustomPayload (encodeFrameInCustomPayload f)
      from rfl]
    exact h

/-- Witness for C1 at a concrete frame with a 9-byte payload stream
(data `[9, 8]`) and concrete random draws. -/
theorem steg_roundtrip_selected_sizes_witness :
    (258 : Nat) < 65536 ∧ (772 : Nat) < 65536 ∧ (5 : Nat) < 256 ∧
    (sendFrameEncode ⟨11, 22, 33, 44, 55, 66⟩ ⟨258, 772, 5, 2, [9, 8]⟩).bind recvFrameDecode =
      .ok ⟨258, 772, 5, 2, [9, 8]⟩ := by
  refine ⟨by norm_num, by norm_num, by norm_num, ?_⟩
  exact steg_roundtrip_selected_sizes ⟨11, 22, 33, 44, 55, 66⟩ ⟨258, 772, 5, 2, [9, 8]⟩
    (by norm_num) (by norm_num) (by norm_num) (by norm_num)
    (by intro b hb; simp at hb; rcases hb with h | h <;> omega)
    (by right; left; rfl)

/-- C2 — the claim says the selector picks PlayerMove exactly for sizes
≤ 9 and CustomPayload otherwise, with size 10 selecting CustomPayload.
REFUTED on the code: `SelectPacketType` compares against
`MaxDataPerPlayerMove = 10` even though its own comments state the
threshold is 9 bytes, so size 10 selects PlayerMove.  Worse, routing a
10-byte data frame into `EncodeFrame` is lossy: the 17th payload-stream
byte is masked to its low 2 bits in the disguise flags field, as the
evaluation of the full send/receive path below shows (last data byte 255
arrives as 3). -/
theorem selector_boundary_and_corruption :
    selectPacketType 9 = packetTypePlayerMove ∧
    selectPacketType 10 = packetTypePlayerMove ∧
    selectPacketType 10 ≠ packetTypeCustomPayload ∧
    selectPacketType 11 = packetTypeCustomPayload ∧
    (sendFrameEncode ⟨0, 0, 0, 0, 0, 0⟩
        ⟨1, 0, 0, 10, [0, 0, 0, 0, 0, 0, 0, 0, 0, 255]⟩).bind recvFrameDecode =
      .ok ⟨1, 0, 0, 10, [0, 0, 0, 0, 0, 0, 0, 0, 0, 3]⟩ := by
  refine ⟨rfl, rfl, by decide, rfl, ?_⟩
  rfl

/-! ## Virtual stream (`src/protocol/multiplexer/stream.go`)

The modelled per-stream state: the stream-state enum, the buffered `readBuf`
channel (capacity 256) as a FIFO list of chunks, whether `closeCh` has been
closed (which is exactly when the `closeOnce` body has run), and the
sequence counter. -/

inductive StreamState where
  | idle
  | syn
  | opened
  | closing
  | closed
  deriving DecidableEq, Repr

structure StreamSt where
  state : StreamState
  readBuf : List (List Nat)
  closeChClosed : Bool
  sequence : Nat
  deriving DecidableEq, Repr

inductive GoErr where
  | closedPipe
  | eof
  deriving DecidableEq, Repr

/-- `Stream.Close` body under `closeOnce`: sets Closing, sends a
best-effort FIN, closes `closeCh`, sets Closed, removes the stream from the
multiplexer; the final stream-visible state is Closed.  A repeated call
does nothing. -/
def streamCloseCall (s : StreamSt) : StreamSt :=
  if s.closeChClosed then s
  else { s with state := .closed, closeChClosed := true }

/-- `Stream.Close` including its return value: the result of
`s.mux.sendFrame(finFrame)` (passed in as `finSendResult`) is discarded and
the function always returns `nil`. -/
def streamCloseResult (s : StreamSt) (finSendResult : Option GoErr) :
    StreamSt × Option GoErr :=
  (streamCloseCall s, none)

/-- `Stream.handleFrame`: SYN+ACK opens the stream; FIN or RST closes it;
a data frame is copied onto `readBuf` (dropped when the stream is closed or
the 256-slot buffer stays full past the 5-second timeout; the Go `select`
among simultaneously ready branches is modelled by this priority). -/
def handleFrame (s : StreamSt) (fr : Frame) : StreamSt :=
  if fr.flags &&& flagACK ≠ 0 ∧ fr.flags &&& flagSYN ≠ 0 then { s with state := .opened }
  else if fr.flags &&& flagFIN ≠ 0 then streamCloseCall s
  else if fr.flags &&& flagRST ≠ 0 then streamCloseCall s
  else if 0 < fr.length ∧ 0 < fr.data.length then
    if s.closeChClosed then s
    else if s.readBuf.length < 256 then { s with readBuf := s.readBuf ++ [fr.data] }
    else s
  else s

/-- The `readBuf` receive arm of `Stream.Read` with a `bufSize`-byte
destination: `n := copy(p, data)` takes `min bufSize chunk.length` bytes;
an unread remainder is sent back to the channel, which appends it at the
TAIL of the queue (or drops it when the buffer is full). -/
def readOnce (bufSize : Nat) (chunk : List Nat) (rest : List (List Nat)) :
    List Nat × List (List Nat) :=
  let taken := chunk.take bufSize
  if chunk.length ≤ bufSize then (taken, rest)
  else if rest.length < 256 then (taken, rest ++ [chunk.drop bufSize])
  else (taken, rest)

inductive ReadResult where
  | bytes (bs : List Nat)
  | eof
  deriving DecidableEq, Repr

/-- One `Stream.Read` call with no read deadline set: the Go `select`
chooses nondeterministically among the ready branches — receiving from a
non-empty `readBuf`, or returning `io.EOF` once `closeCh` is closed. -/
inductive ReadStep (bufSize : Nat) : StreamSt → ReadResult → StreamSt → Prop where
  | recv (s : StreamSt) (chunk : List Nat) (rest : List (List Nat)) :
      s.readBuf = chunk :: rest →
      ReadStep bufSize s (.bytes (readOnce bufSize chunk rest).1)
        { s with readBuf := (readOnce bufSize chunk rest).2 }
  | closed (s : StreamSt) :
      s.closeChClosed = true →
      ReadStep bufSize s .eof s

/-- C5 — the claim says the bytes of successive reads concatenate to a
prefix of the queued chunks in arrival order.  REFUTED on the code: a
`Read` whose buffer is smaller than the first chunk pushes the unread
remainder to the TAIL of the `readBuf` channel, behind chunks that arrived
later.  With chunks `[10, 11]` then `[12]` queued and 1-byte reads, the
three reads return 10, 12, 11, and `[10, 12, 11]` is not a prefix of
`[10, 11, 12]` (the code's own TODO admits the missing remainder
buffering). -/
theorem read_requeues_remainder_at_tail :
    readOnce 1 [10, 11] [[12]] = ([10], [[12], [11]]) ∧
    readOnce 1 [12] [[11]] = ([12], [[11]]) ∧
    readOnce 1 [11] [] = ([11], []) ∧
    [10] ++ [12] ++ [11] ≠ List.take 3 ([10, 11] ++ [12]) := by
  refine ⟨rfl, rfl, rfl, by decide⟩

/-- C7 counterexample — the claim says that after a FIN is received on an
Open stream every subsequent `Read` returns end-of-stream.  REFUTED on the
code: the stream does transition to Closed, but with a chunk still queued
in `readBuf` the `select` in `Read` may take the receive branch and return
that data instead of `io.EOF`. -/
theorem fin_then_read_can_return_data :
    (handleFrame ⟨.opened, [[1]], false, 0⟩ ⟨5, 0, flagFIN, 0, []⟩).state = .closed ∧
    ∃ r s2, ReadStep 1 (handleFrame ⟨.opened, [[1]], false, 0⟩ ⟨5, 0, flagFIN, 0, []⟩) r s2 ∧
      r ≠ .eof := by
  refine ⟨rfl, .bytes (readOnce 1 [1] []).1, _, ReadStep.recv _ [1] [] rfl, by decide⟩

/-- C7 amended — after a not-yet-closed stream receives a frame carrying
FIN (and not the SYN+ACK pair) while Open, or carrying RST (and not the
SYN+ACK pair) in any state, the stream's state becomes Closed, a Read
returning end-of-stream is enabled, and once the inbound queue is empty
every subsequent Read returns end-of-stream. -/
theorem fin_rst_close_and_drained_reads_eof (s : StreamSt) (fr : Frame) (n : Nat)
    (hnsa : ¬ (fr.flags &&& flagACK ≠ 0 ∧ fr.flags &&& flagSYN ≠ 0))
    (hcl : s.closeChClosed = false)
    (hfr : (fr.flags &&& flagFIN ≠ 0 ∧ s.state = .opened) ∨ fr.flags &&& flagRST ≠ 0) :
    (handleFrame s fr).state = .closed ∧
    ReadStep n (handleFrame s fr) .eof (handleFrame s fr) ∧
    (s.readBuf = [] → ∀ r s2, ReadStep n (handleFrame s fr) r s2 → r = .eof) := by
  have hclb : ¬ s.closeChClosed = true := by simp [hcl]
  have hclose : handleFrame s fr = { s with state := .closed, closeChClosed := true } := by
    unfold handleFrame streamCloseCall
    rcases hfr with ⟨hfin, _⟩ | hrst
    · rw [if_neg hnsa, if_pos hfin, if_neg hclb]
    · by_cases hfin : fr.flags &&& flagFIN ≠ 0
      · rw [if_neg hnsa, if_pos hfin, if_neg hclb]
      · rw [if_neg hnsa, if_neg hfin, if_pos hrst, if_neg hclb]
  rw [hclose]
  refine ⟨rfl, ReadStep.closed _ rfl, ?_⟩
  intro hbuf r s2 hstep
  cases hstep with
  | recv chunk rest h =>
    simp only at h
    rw [hbuf] at h
    cases h
  | closed h => rfl

/-- Witness for the amended C7 theorem: an Open stream with an empty
queue receives a plain FIN frame. -/
theorem fin_rst_close_witness :
    (handleFrame ⟨.opened, [], false, 7⟩ ⟨1, 0, 4, 0, []⟩).state = .closed ∧
    ReadStep 8 (handleFrame ⟨.opened, [], false, 7⟩ ⟨1, 0, 4, 0, []⟩) .eof
      (handleFrame ⟨.opened, [], false, 7⟩ ⟨1, 0, 4, 0, []⟩) := by
  have h := fin_rst_close_and_drained_reads_eof ⟨.opened, [], false, 7⟩ ⟨1, 0, 4, 0, []⟩ 8
    (by decide) rfl (Or.inl ⟨by decide, rfl⟩)
  exact ⟨h.1, h.2.1⟩

/-! ## `Stream.Write` (`src/protocol/multiplexer/stream.go`, lines 90-136) -/

theorem getMaxPayload_pos (t : Nat) : 0 < getMaxPayload t := by
  unfold getMaxPayload maxDataPerPlayerMove
  split
  · norm_num
  · split <;> norm_num

/-- The fragmentation loop of `Stream.Write`: each iteration sizes the next
chunk by `GetMaxPayload(SelectPacketType(remaining))` capped at `remaining`,
builds a data frame with the current sequence number, increments the
sequence, and hands the frame to `Multiplexer.sendFrame` (here collected
into the returned list; the model covers the path where every send
succeeds).  Returns the frames and the final sequence counter. -/
def writeChunks (sid : Nat) (seq : Nat) (p : List Nat) : List Frame × Nat :=
  if h : p = [] then ([], seq)
  else
    let chunkSize := min (getMaxPayload (selectPacketType p.length)) p.length
    let chunk := p.take chunkSize
    let rest := writeChunks sid (seq + 1) (p.drop chunkSize)
    (⟨sid, seq, 0, chunk.length, chunk⟩ :: rest.1, rest.2)
termination_by p.length
decreasing_by
  have hpos : 0 < p.length := List.length_pos.mpr h
  have hmax := getMaxPayload_pos (selectPacketType p.length)
  simp only [List.length_drop]
  omega

/-- `Stream.Write`: a write on a Closing or Closed stream fails with
`io.ErrClosedPipe` before touching anything; otherwise the data is
fragmented and sent.  Returns (bytes written, error, stream after the
call, frames handed to the multiplexer). -/
def streamWrite (s : StreamSt) (sid : Nat) (p : List Nat) :
    Nat × Option GoErr × StreamSt × List Frame :=
  if s.state = .closed ∨ s.state = .closing then (0, some .closedPipe, s, [])
  else
    let w := writeChunks sid s.sequence p
    (p.length, none, { s with sequence := w.2 }, w.1)

/-- C8 — `Stream.Write` on a Closing or Closed stream returns a closed-pipe
error and zero bytes written, hands no frame to the multiplexer, and leaves
the stream (state, queue, sequence counter) unchanged. -/
theorem write_on_closed_stream (s : StreamSt) (sid : Nat) (p : List Nat)
    (h : s.state = .closing ∨ s.state = .closed) :
    streamWrite s sid p = (0, some .closedPipe, s, []) := by
  unfold streamWrite
  rcases h with h | h <;> simp [h]

/-- Witness for C8: a closed stream, stream id 3, a 3-byte write. -/
theorem write_on_closed_stream_witness :
    (StreamSt.mk .closed [] true 5).state = .closing ∨
      (StreamSt.mk .closed [] true 5).state = .closed ∧
    streamWrite ⟨.closed, [], true, 5⟩ 3 [1, 2, 3] =
      (0, some .closedPipe, ⟨.closed, [], true, 5⟩, []) := by
  right
  exact ⟨rfl, write_on_closed_stream ⟨.closed, [], true, 5⟩ 3 [1, 2, 3] (Or.inr rfl)⟩

/-- C10 — `Stream.Close` always returns `nil`: the best-effort FIN send's
error is discarded, and a repeated Close is a no-op that also returns
`nil`. -/
theorem close_always_returns_nil (s : StreamSt) (finSendResult e2 : Option GoErr) :
    (streamCloseResult s finSendResult).2 = none ∧
    streamCloseResult (streamCloseResult s finSendResult).1 e2 =
      ((streamCloseResult s finSendResult).1, none) := by
  unfold streamCloseResult streamCloseCall
  refine ⟨rfl, ?_⟩
  by_cases h : s.closeChClosed <;> simp [h]

/-! ## Multiplexer stream-id allocation (`Multiplexer.OpenStream`)

`nextStreamID` is a `uint16` field that `NewMultiplexer` never initialises,
so it starts at Go's zero value 0.  `OpenStream` hands out the current
value, increments it, and only then resets a wrapped-to-zero NEXT value
to 1 (`0 is reserved for control frames`, says the comment). -/

def muxInitialNextStreamID : Nat := 0

def openStreamAllocID (nextStreamID : Nat) : Nat × Nat :=
  let streamID := nextStreamID % 65536
  let incremented := (nextStreamID + 1) % 65536
  (streamID, if incremented = 0 then 1 else incremented)

/-- C4 — the claim says stream id 0 is never assigned.  REFUTED on the
code: the generator starts at the uninitialised value 0 and the skip-to-1
check runs only after the assignment, so the very first `OpenStream` call
on a fresh Multiplexer registers its stream under id 0, contradicting the
code's own comment that 0 is reserved for control frames.  (The
skip-on-wrap part of the claim does hold: allocating at 65535 hands out
65535 and wraps the next id to 1.) -/
theorem first_openStream_assigns_id_zero :
    (openStreamAllocID muxInitialNextStreamID).1 = 0 ∧
    openStreamAllocID 65535 = (65535, 1) := by
  constructor
  · rfl
  · unfold openStreamAllocID
    norm_num

/-! ## Write serialization (`Multiplexer.sendFrame`, lines 278-291)

After encoding, `sendFrame` takes `writeMu` and calls
`minecraft.WritePacket(conn, packet)`, which performs two writes on the
physical connection — the VarInt length prefix, then the type-tag+payload
bytes — and then releases the lock.  The model runs two concurrent
`sendFrame` calls as interleaved atomic operations under standard mutex
semantics (acquisition only when free) and shows the wire carries the two
disguise packets whole, in one order or the other. -/

inductive WireOp where
  | lockAcq
  | lockRel
  | writeBytes (bs : List Nat)
  deriving DecidableEq, Repr

/-- The operation sequence of one `sendFrame` call on packet body `pkt`
(type tag ++ payload): acquire `writeMu`, write the VarInt length prefix,
write the body, release. -/
def sendProg (pkt : List Nat) : List WireOp :=
  [.lockAcq, .writeBytes (natVarInt pkt.length), .writeBytes pkt, .lockRel]

/-- The bytes one whole disguise packet occupies on the wire. -/
def wireOf (pkt : List Nat) : List Nat := natVarInt pkt.length ++ pkt

/-- Two sender threads A and B: who holds `writeMu`, each thread's
remaining operations, and the bytes written to the connection so far. -/
structure ConcState where
  owner : Option Bool
  progA : List WireOp
  progB : List WireOp
  wire : List Nat
  deriving DecidableEq, Repr

/-- One interleaving step: a lock acquisition requires the mutex to be
free; writes append to the wire; a release frees the mutex. -/
inductive ConcStep : ConcState → ConcState → Prop where
  | lockA (pa pb : List WireOp) (w : List Nat) :
      ConcStep ⟨none, .lockAcq :: pa, pb, w⟩ ⟨some false, pa, pb, w⟩
  | lockB (pa pb : List WireOp) (w : List Nat) :
      ConcStep ⟨none, pa, .lockAcq :: pb, w⟩ ⟨some true, pa, pb, w⟩
  | writeA (o : Option Bool) (bs : List Nat) (pa pb : List WireOp) (w : List Nat) :
      ConcStep ⟨o, .writeBytes bs :: pa, pb, w⟩ ⟨o, pa, pb, w ++ bs⟩
  | writeB (o : Option Bool) (bs : List Nat) (pa pb : List WireOp) (w : List Nat) :
      ConcStep ⟨o, pa, .writeBytes bs :: pb, w⟩ ⟨o, pa, pb, w ++ bs⟩
  | relA (o : Option Bool) (pa pb : List WireOp) (w : List Nat) :
      ConcStep ⟨o, .lockRel :: pa, pb, w⟩ ⟨none, pa, pb, w⟩
  | relB (o : Option Bool) (pa pb : List WireOp) (w : List Nat) :
      ConcStep ⟨o, pa, .lockRel :: pb, w⟩ ⟨none, pa, pb, w⟩

/-- The suffix of `sendProg pkt` still to run after `4 - a` of its
operations have executed. -/
def progSuffix (pkt : List Nat) : Nat → List WireOp
  | 0 => []
  | 1 => [.lockRel]
  | 2 => [.writeBytes pkt, .lockRel]
  | 3 => [.writeBytes (natVarInt pkt.length), .writeBytes pkt, .lockRel]
  | _ => sendProg pkt

/-- The bytes a thread at suffix stage `a` has already written. -/
def wroteSoFar (pkt : List Nat) : Nat → List Nat
  | 0 => wireOf pkt
  | 1 => wireOf pkt
  | 2 => natVarInt pkt.length
  | 3 => []
  | _ => []

/-- A thread at stage 1-3 is inside its critical section. -/
def holding : Nat → Bool
  | 1 => true
  | 2 => true
  | 3 => true
  | _ => false

def ownerOf (a b : Nat) : Option Bool :=
  if holding a then some false else if holding b then some true else none

/-- Inductive invariant of the two-sender interleaving: each program is a
suffix of its `sendProg`, at most one thread is inside the critical
section, the mutex owner matches, and the wire is the packet of whichever
thread finished first (if any) followed by the in-progress thread's
partial output. -/
def ConcInv (p1 p2 : List Nat) (s : ConcState) : Prop :=
  ∃ a b, a ≤ 4 ∧ b ≤ 4 ∧
    s.progA = progSuffix p1 a ∧ s.progB = progSuffix p2 b ∧
    ¬ (holding a = true ∧ holding b = true) ∧
    s.owner = ownerOf a b ∧
    ((b = 4 ∧ s.wire = wroteSoFar p1 a) ∨ (a = 4 ∧ s.wire = wroteSoFar p2 b) ∨
     (a = 0 ∧ s.wire = wireOf p1 ++ wroteSoFar p2 b) ∨
     (b = 0 ∧ s.wire = wireOf p2 ++ wroteSoFar p1 a))

theorem progSuffix_acq {pkt : List Nat} {pa : List WireOp} {a : Nat} (h4 : a ≤ 4)
    (h : WireOp.lockAcq :: pa = progSuffix pkt a) : a = 4 ∧ pa = progSuffix pkt 3 := by
  interval_cases a <;> simp [progSuffix, sendProg] at h ⊢ <;> tauto

theorem progSuffix_rel {pkt : List Nat} {pa : List WireOp} {a : Nat} (h4 : a ≤ 4)
    (h : WireOp.lockRel :: pa = progSuffix pkt a) : a = 1 ∧ pa = progSuffix pkt 0 := by
  interval_cases a <;> simp [progSuffix, sendProg] at h ⊢ <;> tauto

theorem progSuffix_write {pkt : List Nat} {pa : List WireOp} {bs : List Nat} {a : Nat}
    (h4 : a ≤ 4) (h : WireOp.writeBytes bs :: pa = progSuffix pkt a) :
    (a = 3 ∧ bs = natVarInt pkt.length ∧ pa = progSuffix pkt 2) ∨
    (a = 2 ∧ bs = pkt ∧ pa = progSuffix pkt 1) := by
  interval_cases a <;> simp [progSuffix, sendProg] at h ⊢ <;> tauto

theorem holding_eq_false_cases {b : Nat} (hb : b ≤ 4) (h : holding b = false) :
    b = 0 ∨ b = 4 := by
  interval_cases b
  · exact Or.inl rfl
  · exact absurd h (by simp [holding])
  · exact absurd h (by simp [holding])
  · exact absurd h (by simp [holding])
  · exact Or.inr rfl

theorem ownerOf_holding_left {a b : Nat} (ha : holding a = true) :
    ownerOf a b = some false := by
  simp [ownerOf, ha]

theorem ownerOf_holding_right {a b : Nat} (ha : holding a = false)
    (hb : holding b = true) : ownerOf a b = some true := by
  simp [ownerOf, ha, hb]

theorem ownerOf_free {a b : Nat} (ha : holding a = false) (hb : holding b = false) :
    ownerOf a b = none := by
  simp [ownerOf, ha, hb]

theorem ownerOf_none {a b : Nat} (h : none = ownerOf a b) :
    holding a = false ∧ holding b = false := by
  unfold ownerOf at h
  by_cases ha : holding a = true
  · rw [if_pos ha] at h
    cases h
  · by_cases hb : holding b = true
    · rw [if_neg ha, if_pos hb] at h
      cases h
    · exact ⟨by simpa using ha, by simpa using hb⟩

theorem concInv_step {p1 p2 : List Nat} {s t : ConcState}
    (hinv : ConcInv p1 p2 s) (hstep : ConcStep s t) : ConcInv p1 p2 t := by
  obtain ⟨a, b, ha4, hb4, hpa, hpb, hnot, howner, hwire⟩ := hinv
  cases hstep with
  | lockA pa pb w =>
    simp only at hpa hpb howner hwire
    obtain ⟨haeq, hpa3⟩ := progSuffix_acq ha4 hpa
    subst haeq
    obtain ⟨-, hbfree⟩ := ownerOf_none howner
    have hb04 := holding_eq_false_cases hb4 hbfree
    refine ⟨3, b, by omega, hb4, hpa3, hpb, ?_, ?_, ?_⟩
    · simp [hbfree]
    · rw [ownerOf_holding_left (show holding 3 = true from rfl)]
    · rcases hwire with ⟨h1, h2⟩ | ⟨h1, h2⟩ | ⟨h1, h2⟩ | ⟨h1, h2⟩
      · exact Or.inl ⟨h1, by simpa [wroteSoFar] using h2⟩
      · rcases hb04 with hb | hb
        · subst hb
          exact Or.inr (Or.inr (Or.inr ⟨rfl, by simp [wroteSoFar] at h2 ⊢; simp [h2]⟩))
        · subst hb
          exact Or.inl ⟨rfl, by simpa [wroteSoFar] using h2⟩
      · omega
      · exact Or.inr (Or.inr (Or.inr ⟨h1, by simpa [wroteSoFar] using h2⟩))
  | lockB pa pb w =>
    simp only at hpa hpb howner hwire
    obtain ⟨hbeq, hpb3⟩ := progSuffix_acq hb4 hpb
    subst hbeq
    obtain ⟨hafree, -⟩ := ownerOf_none howner
    have ha04 := holding_eq_false_cases ha4 hafree
    refine ⟨a, 3, ha4, by omega, hpa, hpb3, ?_, ?_, ?_⟩
    · simp [hafree]
    · rw [ownerOf_holding_right hafree (show holding 3 = true from rfl)]
    · rcases hwire with ⟨h1, h2⟩ | ⟨h1, h2⟩ | ⟨h1, h2⟩ | ⟨h1, h2⟩
      · rcases ha04 with ha | ha
        · subst ha
          exact Or.inr (Or.inr (Or.inl ⟨rfl, by simp [wroteSoFar] at h2 ⊢; simp [h2]⟩))
        · subst ha
          exact Or.inr (Or.inl ⟨rfl, by simpa [wroteSoFar] using h2⟩)
      · exact Or.inr (Or.inl ⟨h1, by simpa [wroteSoFar] using h2⟩)
      · exact Or.inr (Or.inr (Or.inl ⟨h1, by simpa [wroteSoFar] using h2⟩))
      · omega
  | writeA o bs pa pb w =>
    simp only at hpa hpb howner hwire
    rcases progSuffix_write ha4 hpa with ⟨haeq, hbs, hpa2⟩ | ⟨haeq, hbs, hpa2⟩ <;>
      subst haeq <;> subst hbs
    · have hbfree : holding b = false := by
        by_contra hc
        exact hnot ⟨rfl, by simpa using hc⟩
      refine ⟨2, b, by omega, hb4, hpa2, hpb, by simp [hbfree], ?_, ?_⟩
      · rw [howner, ownerOf_holding_left (show holding 3 = true from rfl),
          ownerOf_holding_left (show holding 2 = true from rfl)]
      · rcases hwire with ⟨h1, h2⟩ | ⟨h1, h2⟩ | ⟨h1, h2⟩ | ⟨h1, h2⟩
        · exact Or.inl ⟨h1, by simp [wroteSoFar] at h2 ⊢; simp [h2]⟩
        · omega
        · omega
        · exact Or.inr (Or.inr (Or.inr ⟨h1, by
            simp only [wroteSoFar] at h2 ⊢
            simp [h2]⟩))
    · have hbfree : holding b = false := by
        by_contra hc
        exact hnot ⟨rfl, by simpa using hc⟩
      refine ⟨1, b, by omega, hb4, hpa2, hpb, by simp [hbfree], ?_, ?_⟩
      · rw [howner, ownerOf_holding_left (show holding 2 = true from rfl),
          ownerOf_holding_left (show holding 1 = true from rfl)]
      · rcases hwire with ⟨h1, h2⟩ | ⟨h1, h2⟩ | ⟨h1, h2⟩ | ⟨h1, h2⟩
        · exact Or.inl ⟨h1, by
            simp only [wroteSoFar, wireOf] at h2 ⊢
            simp [h2]⟩
        · omega
        · omega
        · exact Or.inr (Or.inr (Or.inr ⟨h1, by
            simp only [wroteSoFar, wireOf] at h2 ⊢
            simp [h2]⟩))
  | writeB o bs pa pb w =>
    simp only at hpa hpb howner hwire
    rcases progSuffix_write hb4 hpb with ⟨hbeq, hbs, hpb2⟩ | ⟨hbeq, hbs, hpb2⟩ <;>
      subst hbeq <;> subst hbs
    · have hafree : holding a = false := by
        by_contra hc
        exact hnot ⟨by simpa using hc, rfl⟩
      refine ⟨a, 2, ha4, by omega, hpa, hpb2, by simp [hafree], ?_, ?_⟩
      · rw [howner, ownerOf_holding_right hafree (show holding 3 = true from rfl),
          ownerOf_holding_right hafree (show holding 2 = true from rfl)]
      · rcases hwire with ⟨h1, h2⟩ | ⟨h1, h2⟩ | ⟨h1, h2⟩ | ⟨h1, h2⟩
        · omega
        · exact Or.inr (Or.inl ⟨h1, by simp [wroteSoFar] at h2 ⊢; simp [h2]⟩)
        · exact Or.inr (Or.inr (Or.inl ⟨h1, by
            simp only [wroteSoFar] at h2 ⊢
            simp [h2]⟩))
        · omega
    · have hafree : holding a = false := by
        by_contra hc
        exact hnot ⟨by simpa using hc, rfl⟩
      refine ⟨a, 1, ha4, by omega, hpa, hpb2, by simp [hafree], ?_, ?_⟩
      · rw [howner, ownerOf_holding_right hafree (show holding 2 = true from rfl),
          ownerOf_holding_right hafree (show holding 1 = true from rfl)]
      · rcases hwire with ⟨h1, h2⟩ | ⟨h1, h2⟩ | ⟨h1, h2⟩ | ⟨h1, h2⟩
        · omega
        · exact Or.inr (Or.inl ⟨h1, by
            simp only [wroteSoFar, wireOf] at h2 ⊢
            simp [h2]⟩)
        · exact Or.inr (Or.inr (Or.inl ⟨h1, by
            simp only [wroteSoFar, wireOf] at h2 ⊢
            simp [h2]⟩))
        · omega
  | relA o pa pb w =>
    simp only at hpa hpb howner hwire
    obtain ⟨haeq, hpa0⟩ := progSuffix_rel ha4 hpa
    subst haeq
    have hbfree : holding b = false := by
      by_contra hc
      exact hnot ⟨rfl, by simpa using hc⟩
    refine ⟨0, b, by omega, hb4, hpa0, hpb, by simp [hbfree], ?_, ?_⟩
    · rw [ownerOf_free (show holding 0 = false from rfl) hbfree]
    · rcases hwire with ⟨h1, h2⟩ | ⟨h1, h2⟩ | ⟨h1, h2⟩ | ⟨h1, h2⟩
      · exact Or.inl ⟨h1, by simpa [wroteSoFar] using h2⟩
      · omega
      · omega
      · exact Or.inr (Or.inr (Or.inr ⟨h1, by simpa [wroteSoFar] using h2⟩))
  | relB o pa pb w =>
    simp only at hpa hpb howner hwire
    obtain ⟨hbeq, hpb0⟩ := progSuffix_rel hb4 hpb
    subst hbeq
    have hafree : holding a = false := by
      by_contra hc
      exact hnot ⟨by simpa using hc, rfl⟩
    refine ⟨a, 0, ha4, by omega, hpa, hpb0, by simp [hafree], ?_, ?_⟩
    · rw [ownerOf_free hafree (show holding 0 = false from rfl)]
    · rcases hwire with ⟨h1, h2⟩ | ⟨h1, h2⟩ | ⟨h1, h2⟩ | ⟨h1, h2⟩
      · omega
      · exact Or.inr (Or.inl ⟨h1, by simpa [wroteSoFar] using h2⟩)
      · exact Or.inr (Or.inr (Or.inl ⟨h1, by simpa [wroteSoFar] using h2⟩))
      · omega

/-- C9 — two concurrent `sendFrame` calls never interleave their disguise
packets on the wire: every complete interleaved execution of the two
lock-write-write-unlock programs leaves the wire equal to one whole packet
followed by the other. -/
theorem concInv_reachable (p1 p2 : List Nat) (s : ConcState)
    (hexec : Relation.ReflTransGen ConcStep ⟨none, sendProg p1, sendProg p2, []⟩ s) :
    ConcInv p1 p2 s := by
  induction hexec with
  | refl =>
    exact ⟨4, 4, by omega, by omega, rfl, rfl, by simp [holding], rfl, Or.inl ⟨rfl, rfl⟩⟩
  | tail hsteps hstep ih => exact concInv_step ih hstep

/-- C9 — two concurrent `sendFrame` calls never interleave their disguise
packets on the wire: every complete interleaved execution of the two
lock-write-write-unlock programs leaves the wire equal to one whole packet
followed by the other. -/
theorem sendFrame_writes_not_interleaved (p1 p2 : List Nat) (s : ConcState)
    (hexec : Relation.ReflTransGen ConcStep ⟨none, sendProg p1, sendProg p2, []⟩ s)
    (hA : s.progA = []) (hB : s.progB = []) :
    s.wire = wireOf p1 ++ wireOf p2 ∨ s.wire = wireOf p2 ++ wireOf p1 := by
  obtain ⟨a, b, ha4, hb4, hpa, hpb, hnot, howner, hwire⟩ := concInv_reachable p1 p2 s hexec
  rw [hA] at hpa
  rw [hB] at hpb
  have ha0 : a = 0 := by
    interval_cases a <;> simp [progSuffix, sendProg] at hpa ⊢
  have hb0 : b = 0 := by
    interval_cases b <;> simp [progSuffix, sendProg] at hpb ⊢
  subst ha0
  subst hb0
  rcases hwire with ⟨h1, _⟩ | ⟨h1, _⟩ | ⟨_, h2⟩ | ⟨_, h2⟩
  · omega
  · omega
  · exact Or.inl (by simpa [wroteSoFar] using h2)
  · exact Or.inr (by simpa [wroteSoFar] using h2)

/-- Witness for C9: a complete concrete execution in which thread A (packet
`[1]`) runs its whole critical section, then thread B (packet `[2]`). -/
theorem sendFrame_writes_not_interleaved_witness :
    (([] : List Nat) ++ natVarInt [1].length ++ [1] ++ natVarInt [2].length ++ [2] =
        wireOf [1] ++ wireOf [2]) ∨
      (([] : List Nat) ++ natVarInt [1].length ++ [1] ++ natVarInt [2].length ++ [2] =
        wireOf [2] ++ wireOf [1]) := by
  refine sendFrame_writes_not_interleaved [1] [2]
    ⟨none, [], [], [] ++ natVarInt [1].length ++ [1] ++ natVarInt [2].length ++ [2]⟩ ?_ rfl rfl
  exact .head (.lockA _ _ _) (.head (.writeA _ _ _ _ _) (.head (.writeA _ _ _ _ _)
    (.head (.relA _ _ _ _) (.head (.lockB _ _ _) (.head (.writeB _ _ _ _ _)
      (.head (.writeB _ _ _ _ _) (.head (.relB _ _ _ _) .refl)))))))

end Koria
